import Mathlib

/-!
Verification development for the `ismatec` pump driver.

This file gives a shallow embedding of the core of `src/ismatec/util.py`
(the `Communicator` base class, its `SerialCommunicator` and
`SocketCommunicator` subclasses, and the `Protocol` codec methods), and
proves or refutes the specification claims about it.

Conventions of the embedding:
* Python `str` values are modelled as `List Char`; Python `bytes` values as
  `List Nat` (the byte values).  In Python 3 an `==` comparison between a
  `bytes` object and a `str` object is always `False`, which the `pyEq`
  function below reproduces.
* Python numbers handed to the codec are modelled as exact rationals `ℚ`
  (or as `ℤ` where the source only ever works with integers).  Where the
  source calls `str(...)` on a float, the float is modelled by the decimal
  form its `repr` prints (type `PyNum`).
* Fallible code (a failing `assert`, an uncaught exception) is modelled
  with `Option`/`Except`.
-/

namespace Ismatec

/-! ## Decimal-string helpers (embedding Python `str`/`int` primitives) -/

/-- Numeric value of a decimal digit character. -/
def digitVal (c : Char) : ℕ := c.toNat - 48

/-- Base-10 digits of `n`, least significant first, via structural
recursion on a fuel bound (so that the kernel can evaluate it; proved
equal to `Nat.digits 10` below). -/
def decDigits : ℕ → ℕ → List ℕ
  | 0, _ => []
  | fuel + 1, n => if n = 0 then [] else n % 10 :: decDigits fuel (n / 10)

/-- Decimal rendering of a natural number, as Python `str` produces for a
nonnegative `int`: most-significant digit first, no leading zeros, `"0"`
for zero. -/
def decStr (n : ℕ) : List Char :=
  if n = 0 then ['0'] else ((decDigits n n).map Nat.digitChar).reverse

theorem decDigits_eq_digits : ∀ fuel n, n ≤ fuel → decDigits fuel n = Nat.digits 10 n := by
  intro fuel
  induction fuel with
  | zero => intro n hn; interval_cases n; simp [decDigits]
  | succ fuel ih =>
    intro n hn
    by_cases hz : n = 0
    · subst hz; simp [decDigits]
    · rw [decDigits, if_neg hz, Nat.digits_def' (by norm_num) (Nat.pos_of_ne_zero hz),
        ih (n / 10) (by omega)]

theorem decStr_eq_digits (n : ℕ) :
    decStr n = if n = 0 then ['0'] else ((Nat.digits 10 n).map Nat.digitChar).reverse := by
  unfold decStr
  rw [decDigits_eq_digits n n le_rfl]

/-- Python `str` of an `int` (possibly negative). -/
def intStr (n : ℤ) : List Char :=
  if n < 0 then '-' :: decStr n.natAbs else decStr n.natAbs

/-- Python `str.zfill`: left-pad with `'0'` to the given width. -/
def zfill (w : ℕ) (s : List Char) : List Char :=
  List.replicate (w - s.length) '0' ++ s

/-- Read a decimal digit string back into a natural number (used by the
spec-modelled decode functions and by `int(...)` on strings). -/
def parseNat (s : List Char) : ℕ := s.foldl (fun a c => a * 10 + digitVal c) 0

theorem digitChar_ne_E (d : ℕ) : Nat.digitChar d ≠ 'E' := by
  rcases d with _|_|_|_|_|_|_|_|_|_|_|_|_|_|_|_|d <;> simp [Nat.digitChar]

theorem digitChar_ne_dot (d : ℕ) : Nat.digitChar d ≠ '.' := by
  rcases d with _|_|_|_|_|_|_|_|_|_|_|_|_|_|_|_|d <;> simp [Nat.digitChar]

theorem digitChar_eq_zeroChar_iff {d : ℕ} (h : d < 10) :
    Nat.digitChar d = '0' ↔ d = 0 := by
  interval_cases d <;> simp <;> decide

theorem digitVal_digitChar {d : ℕ} (h : d < 10) :
    digitVal (Nat.digitChar d) = d := by
  interval_cases d <;> decide

theorem decStr_ne_nil (n : ℕ) : decStr n ≠ [] := by
  rw [decStr_eq_digits]
  split
  · simp
  · simp [Nat.digits_ne_nil_iff_ne_zero, *]

theorem decStr_length (n : ℕ) (hn : n ≠ 0) :
    (decStr n).length = (Nat.digits 10 n).length := by
  simp [decStr_eq_digits, hn]

theorem decStr_length_le {n k : ℕ} (hk : 1 ≤ k) (h : n < 10 ^ k) :
    (decStr n).length ≤ k := by
  by_cases hn : n = 0
  · subst hn; simp [decStr_eq_digits]; omega
  · rw [decStr_length n hn, Nat.digits_len 10 n (by norm_num) hn]
    have := (Nat.lt_pow_iff_log_lt (b := 10) (by norm_num) hn).mp h
    omega

theorem decStr_head_ne_zeroChar {n : ℕ} (hn : n ≠ 0) :
    (decStr n).head? ≠ some '0' := by
  have hnil : Nat.digits 10 n ≠ [] := Nat.digits_ne_nil_iff_ne_zero.mpr hn
  have hlast : (Nat.digits 10 n).getLast hnil ≠ 0 :=
    Nat.getLast_digit_ne_zero 10 hn
  have hlt : (Nat.digits 10 n).getLast hnil < 10 :=
    Nat.digits_lt_base (by norm_num) (List.getLast_mem hnil)
  rw [decStr_eq_digits, if_neg hn, List.head?_reverse, List.getLast?_map,
    List.getLast?_eq_getLast _ hnil]
  intro hcontra
  have : Nat.digitChar ((Nat.digits 10 n).getLast hnil) = '0' := by
    simpa using hcontra
  exact hlast ((digitChar_eq_zeroChar_iff hlt).mp this)

theorem foldl_rev_digits (a : ℕ) (l : List ℕ) (h : ∀ d ∈ l, d < 10) :
    ((l.map Nat.digitChar).reverse).foldl (fun x c => x * 10 + digitVal c) a
      = a * 10 ^ l.length + Nat.ofDigits 10 l := by
  induction l generalizing a with
  | nil => simp [Nat.ofDigits]
  | cons d t ih =>
    have hd : d < 10 := h d (List.mem_cons_self d t)
    have ht : ∀ x ∈ t, x < 10 := fun x hx => h x (List.mem_cons_of_mem d hx)
    simp only [List.map_cons, List.reverse_cons, List.foldl_append, ih a ht,
      List.foldl_cons, List.foldl_nil, Nat.ofDigits_cons, List.length_cons]
    rw [digitVal_digitChar hd]
    ring

theorem parseNat_decStr (n : ℕ) : parseNat (decStr n) = n := by
  by_cases hn : n = 0
  · subst hn; decide
  · unfold parseNat
    rw [decStr_eq_digits, if_neg hn,
      foldl_rev_digits 0 _ (fun d hd => Nat.digits_lt_base (by norm_num) hd)]
    simp [Nat.ofDigits_digits]

theorem foldl_zeros (a k : ℕ) :
    (List.replicate k '0').foldl (fun x c => x * 10 + digitVal c) a
      = a * 10 ^ k := by
  induction k generalizing a with
  | zero => simp
  | succ k ih =>
    simp only [List.replicate_succ, List.foldl_cons, ih]
    have : digitVal '0' = 0 := by decide
    rw [this]
    ring

theorem parseNat_zfill (w : ℕ) (s : List Char) :
    parseNat (zfill w s) = parseNat s := by
  unfold parseNat zfill
  rw [List.foldl_append, foldl_zeros]
  simp

theorem zfill_length (w : ℕ) (s : List Char) :
    (zfill w s).length = max w s.length := by
  simp [zfill]
  omega

/-! ## The codec (util.py, class `Protocol`) -/

namespace Protocol

/-- The `units` argument of `_time1`/`_time2`: `'s'`, `'m'` or `'h'`. -/
inductive TimeUnit
  | s
  | m
  | h

/-- The `unit_options` multiplier table inside `Protocol._time1`. -/
def unitMult : TimeUnit → ℕ
  | .s => 10
  | .m => 600
  | .h => 36000

/-- Python `int(...)` applied to a number: truncation toward zero. -/
def pyInt (q : ℚ) : ℤ := if 0 ≤ q then ⌊q⌋ else -⌊-q⌋

/-- Python `str.replace('.', '')`: drop every `'.'`. -/
def removeDot (s : List Char) : List Char := s.filter (fun c => c ≠ '.')

/-- Embeds `Protocol._time1`: `number = int(number * unit_options[units])`,
then `str(min(number, 35964000)).replace('.', '')`. -/
def _time1 (number : ℚ) (units : TimeUnit) : List Char :=
  removeDot (intStr (min (pyInt (number * unitMult units)) 35964000))

/-- Embeds `Protocol._time2`: `self._time1(number, units).zfill(8)`. -/
def _time2 (number : ℚ) (units : TimeUnit) : List Char :=
  zfill 8 (_time1 number units)

/-- A Python number as received by `_discrete2`: an `int`, or a float whose
`repr` is the finite decimal `ip.frac` (with a sign).  Python prints floats
by their shortest round-trip decimal form; the floats this driver feeds to
`_discrete2` (tubing diameters such as `1.02`) have such a short exact
form, which the embedding records directly. -/
inductive PyNum
  | int (n : ℤ)
  | float (neg : Bool) (ip : ℕ) (frac : List ℕ)

/-- Numeric value of a `PyNum`. -/
def PyNum.val : PyNum → ℚ
  | .int n => n
  | .float neg ip frac =>
      let mag : ℚ :=
        ip + (Nat.ofDigits 10 frac.reverse : ℕ) / (10 : ℚ) ^ frac.length
      if neg then -mag else mag

/-- Python `str(...)` of a `PyNum` (for a float, the decimal its `repr`
prints). -/
def PyNum.pyStr : PyNum → List Char
  | .int n => intStr n
  | .float neg ip frac =>
      (if neg then ['-'] else []) ++ decStr ip ++ '.' :: frac.map Nat.digitChar

/-- Embeds `Protocol._discrete2`: `assert 0 <= number < 10_000`, then
`str(number).zfill(4)`.  A failing assert is `none`. -/
def _discrete2 (number : PyNum) : Option (List Char) :=
  if 0 ≤ number.val ∧ number.val < 10000 then some (zfill 4 number.pyStr)
  else none

/-- Embeds `Protocol._discrete3`: `assert 0 <= number < 1_000_000`, then
`str(number).zfill(6)`.  A failing assert is `none`.  Every caller passes
an `int`. -/
def _discrete3 (number : ℤ) : Option (List Char) :=
  if 0 ≤ number ∧ number < 1000000 then some (zfill 6 (intStr number))
  else none

/-- Round half to even, the rounding Python float formatting applies. -/
def rndHalfEven (q : ℚ) : ℤ :=
  if Int.fract q < 1/2 then ⌊q⌋
  else if 1/2 < Int.fract q then ⌊q⌋ + 1
  else if ⌊q⌋ % 2 = 0 then ⌊q⌋ else ⌊q⌋ + 1

/-- Mantissa and exponent produced by `%.3e` formatting of a positive
value: the exponent is the floor of log₁₀ and the mantissa the four
most significant digits, the carry case (rounding up to `10.000`)
bumping the exponent. -/
def sci3 (a : ℚ) : ℤ × ℤ :=
  let e0 := Int.log 10 a
  let m0 := rndHalfEven (a * (10 : ℚ) ^ ((3 : ℤ) - e0))
  if m0 = 10000 then (1000, e0 + 1) else (m0, e0)

/-- The exponent field printed by `%.3e`: a sign and at least two digits. -/
def expChars (e : ℤ) : List Char :=
  (if e < 0 then ['-'] else ['+']) ++ zfill 2 (decStr e.natAbs)

/-- Embeds the Python formatting `f'{a:.3e}'` for a nonnegative value `a`:
one mantissa digit, `'.'`, three more mantissa digits, `'e'`, then a signed
two-or-more-digit exponent. -/
def formatSci3 (a : ℚ) : List Char :=
  if a = 0 then ['0', '.', '0', '0', '0', 'e', '+', '0', '0']
  else
    let p := sci3 a
    let m := p.1.toNat
    [Nat.digitChar (m / 1000), '.', Nat.digitChar (m / 100 % 10),
      Nat.digitChar (m / 10 % 10), Nat.digitChar (m % 10), 'e'] ++ expChars p.2

/-- Python string indexing `s[i]`, with a negative index counting from the
end.  Every use below is in range, so the default char is immaterial. -/
def sIdx (s : List Char) (i : ℤ) : Char :=
  if 0 ≤ i then s.getD i.toNat '0' else s.getD (s.length - i.natAbs) '0'

/-- Embeds `Protocol._volume1`: `s = f'{abs(number):.3e}'`, then
`f'{s[0]}{s[2:5]}E{s[-3]}{s[-1]}'`. -/
def _volume1 (number : ℚ) : List Char :=
  let s := formatSci3 |number|
  sIdx s 0 :: ((s.drop 2).take 3 ++ ('E' :: [sIdx s (-3), sIdx s (-1)]))

/-- Embeds `Protocol._volume2`: `self._volume1(number).replace('E', '')`. -/
def _volume2 (number : ℚ) : List Char :=
  (_volume1 number).filter (fun c => c ≠ 'E')

/-- Modelled from the spec: the repository has no decode functions under
`src/` ("All decode paths (used when parsing device responses) are the
algebraic inverses").  Inverse of `_time1`: parse the decimal
tenths-of-a-second field and convert back to the caller's unit. -/
def decodeTime1 (s : List Char) (units : TimeUnit) : ℚ :=
  (parseNat s : ℚ) / unitMult units

/-- Modelled from the spec: inverse of `_time2`; the zero padding is
transparent to decimal parsing. -/
def decodeTime2 (s : List Char) (units : TimeUnit) : ℚ :=
  decodeTime1 s units

/-- Modelled from the spec: inverse of `_volume1`, reading `mmmmEse` as
`m.mmm × 10^(±e)`. -/
def decodeVolume1 : List Char → Option ℚ
  | [a, b, c, d, 'E', sg, ex] =>
      some (((1000 * digitVal a + 100 * digitVal b + 10 * digitVal c
          + digitVal d : ℕ) : ℚ) / 1000
        * (10 : ℚ) ^ (if sg = '-' then -(digitVal ex : ℤ) else (digitVal ex : ℤ)))
  | _ => none

/-- Modelled from the spec: inverse of `_volume2`, the same as
`decodeVolume1` but without the `'E'` separator. -/
def decodeVolume2 : List Char → Option ℚ
  | [a, b, c, d, sg, ex] =>
      some (((1000 * digitVal a + 100 * digitVal b + 10 * digitVal c
          + digitVal d : ℕ) : ℚ) / 1000
        * (10 : ℚ) ^ (if sg = '-' then -(digitVal ex : ℤ) else (digitVal ex : ℤ)))
  | _ => none

/-- Modelled from the spec: inverse of `_discrete2` on its documented
domain ("a discrete integer value in base 10"): decimal parsing. -/
def decodeDiscrete2 (s : List Char) : ℤ := (parseNat s : ℤ)

/-- Modelled from the spec: inverse of `_discrete3`: decimal parsing. -/
def decodeDiscrete3 (s : List Char) : ℤ := (parseNat s : ℤ)

end Protocol

/-! ## Support lemmas about the codec -/

theorem intStr_nonneg {n : ℤ} (h : 0 ≤ n) : intStr n = decStr n.toNat := by
  rw [intStr, if_neg (by omega)]
  congr 1
  omega

theorem decStr_mem {n : ℕ} {c : Char} (hc : c ∈ decStr n) :
    ∃ d, d < 10 ∧ c = Nat.digitChar d := by
  rw [decStr_eq_digits] at hc
  by_cases hn : n = 0
  · rw [if_pos hn] at hc
    simp only [List.mem_singleton] at hc
    exact ⟨0, by norm_num, hc⟩
  · rw [if_neg hn, List.mem_reverse] at hc
    obtain ⟨d, hd, rfl⟩ := List.mem_map.mp hc
    exact ⟨d, Nat.digits_lt_base (by norm_num) hd, rfl⟩

theorem mem_zfill {w : ℕ} {s : List Char} {c : Char} (hc : c ∈ zfill w s) :
    c = '0' ∨ c ∈ s := by
  rcases List.mem_append.mp hc with h | h
  · exact Or.inl (List.eq_of_mem_replicate h)
  · exact Or.inr h

namespace Protocol

theorem removeDot_decStr (n : ℕ) : removeDot (decStr n) = decStr n := by
  apply List.filter_eq_self.mpr
  intro c hc
  obtain ⟨d, hd, rfl⟩ := decStr_mem hc
  simp [digitChar_ne_dot d]

theorem pyInt_nonneg {q : ℚ} (h : 0 ≤ q) : 0 ≤ pyInt q := by
  rw [pyInt, if_pos h]
  exact Int.floor_nonneg.mpr h

/-- C9: for a nonnegative duration, `_time1` renders
`min(int(value * mult), 35964000)` in decimal with no leading zeros, with
the multiplier table seconds×10, minutes×600, hours×36000, and `_time2` is
the same string left-padded with zeros to exactly 8 characters. -/
theorem time_codec_spec (v : ℚ) (u : TimeUnit) (hv : 0 ≤ v) :
    _time1 v u = decStr (min (pyInt (v * unitMult u)) 35964000).toNat
      ∧ ((_time1 v u).head? ≠ some '0' ∨ _time1 v u = ['0'])
      ∧ unitMult TimeUnit.s = 10 ∧ unitMult TimeUnit.m = 600
      ∧ unitMult TimeUnit.h = 36000
      ∧ _time2 v u = zfill 8 (_time1 v u)
      ∧ (_time2 v u).length = 8 := by
  have hvm : (0 : ℚ) ≤ v * unitMult u := mul_nonneg hv (by positivity)
  have h0 : 0 ≤ min (pyInt (v * unitMult u)) 35964000 :=
    le_min (pyInt_nonneg hvm) (by norm_num)
  have h1 : _time1 v u = decStr (min (pyInt (v * unitMult u)) 35964000).toNat := by
    rw [_time1, intStr_nonneg h0, removeDot_decStr]
  refine ⟨h1, ?_, rfl, rfl, rfl, rfl, ?_⟩
  · by_cases hz : (min (pyInt (v * unitMult u)) 35964000).toNat = 0
    · right
      rw [h1, hz]
      rfl
    · left
      rw [h1]
      exact decStr_head_ne_zeroChar hz
  · rw [_time2, zfill_length]
    have hub : (min (pyInt (v * unitMult u)) 35964000).toNat < 10 ^ 8 := by
      have := min_le_right (pyInt (v * unitMult u)) 35964000
      omega
    have := decStr_length_le (k := 8) (by norm_num) hub
    rw [h1]
    omega

/-- Witness for `time_codec_spec` at `value = 3`, `unit = seconds`. -/
theorem time_codec_spec_witness :
    _time1 3 TimeUnit.s = decStr (min (pyInt ((3 : ℚ) * unitMult TimeUnit.s)) 35964000).toNat
      ∧ ((_time1 3 TimeUnit.s).head? ≠ some '0' ∨ _time1 3 TimeUnit.s = ['0'])
      ∧ unitMult TimeUnit.s = 10 ∧ unitMult TimeUnit.m = 600
      ∧ unitMult TimeUnit.h = 36000
      ∧ _time2 3 TimeUnit.s = zfill 8 (_time1 3 TimeUnit.s)
      ∧ (_time2 3 TimeUnit.s).length = 8 :=
  time_codec_spec 3 TimeUnit.s (by norm_num)

/-- C6: `_discrete3` succeeds, with an exactly-6-character zero-padded
decimal string, for every integer `0 ≤ n ≤ 999999`, and fails before any
I/O (the failing assert, the spec's `EncodingError`) for `1_000_000` and
for every negative input. -/
theorem discrete3_range_spec :
    (∀ n : ℤ, 0 ≤ n → n ≤ 999999 →
        _discrete3 n = some (zfill 6 (decStr n.toNat))
          ∧ (zfill 6 (decStr n.toNat)).length = 6)
      ∧ _discrete3 1000000 = none
      ∧ (∀ n : ℤ, n < 0 → _discrete3 n = none) := by
  refine ⟨?_, ?_, ?_⟩
  · intro n h0 h6
    have hd : _discrete3 n = some (zfill 6 (intStr n)) := by
      unfold _discrete3
      rw [if_pos (⟨h0, by omega⟩ : 0 ≤ n ∧ n < 1000000)]
    refine ⟨by rw [hd, intStr_nonneg h0], ?_⟩
    rw [zfill_length]
    have hub : n.toNat < 10 ^ 6 := by omega
    have := decStr_length_le (k := 6) (by norm_num) hub
    omega
  · unfold _discrete3
    rw [if_neg (by omega)]
  · intro n hn
    unfold _discrete3
    rw [if_neg (by omega)]

/-- Witness for `discrete3_range_spec` at `n = 999999` and `n = -1`. -/
theorem discrete3_range_spec_witness :
    _discrete3 999999 = some (zfill 6 (decStr (999999 : ℤ).toNat))
      ∧ _discrete3 (-1) = none :=
  ⟨(discrete3_range_spec.1 999999 (by norm_num) (by norm_num)).1,
    discrete3_range_spec.2.2 (-1) (by norm_num)⟩

/-- C5: evaluating `_discrete2` at the spec's own example input `1.02`
(`PyNum.float false 1 [0, 2]`, whose `str` is `"1.02"`): the assert
passes and the code returns `"1.02"` — four characters including a decimal
point — not the digit concatenation `"0102"` the claim states, and no
error is raised. -/
theorem discrete2_float_eval :
    _discrete2 (PyNum.float false 1 [0, 2]) = some ['1', '.', '0', '2']
      ∧ (['1', '.', '0', '2'] : List Char) ≠ ['0', '1', '0', '2'] := by
  constructor
  · have hcond : (0 : ℚ) ≤ (PyNum.float false 1 [0, 2]).val
        ∧ (PyNum.float false 1 [0, 2]).val < 10000 := by
      constructor <;> norm_num [PyNum.val, Nat.ofDigits]
    unfold _discrete2
    rw [if_pos hcond]
    decide
  · decide

theorem getD_ne_E {s : List Char} (h : 'E' ∉ s) (n : ℕ) : s.getD n '0' ≠ 'E' := by
  rw [List.getD_eq_getElem?_getD]
  rcases hg : s[n]? with _ | c
  · decide
  · have hmem : c ∈ s := List.getElem?_mem hg
    simp only [Option.getD_some]
    intro hc
    exact h (hc ▸ hmem)

theorem sIdx_ne_E {s : List Char} (h : 'E' ∉ s) (i : ℤ) : sIdx s i ≠ 'E' := by
  rw [sIdx]
  split
  · exact getD_ne_E h _
  · exact getD_ne_E h _

theorem expChars_no_E (e : ℤ) : 'E' ∉ expChars e := by
  intro hmem
  rcases List.mem_append.mp hmem with h | h
  · revert h
    split <;> decide
  · rcases mem_zfill h with h0 | hs
    · exact absurd h0 (by decide)
    · obtain ⟨d, _, hd⟩ := decStr_mem hs
      exact digitChar_ne_E d hd.symm

theorem formatSci3_no_E (a : ℚ) : 'E' ∉ formatSci3 a := by
  unfold formatSci3
  split
  · decide
  · intro hmem
    simp only [List.cons_append, List.nil_append, List.mem_cons] at hmem
    rcases hmem with h|h|h|h|h|h|h
    · exact digitChar_ne_E _ h.symm
    · exact absurd h (by decide)
    · exact digitChar_ne_E _ h.symm
    · exact digitChar_ne_E _ h.symm
    · exact digitChar_ne_E _ h.symm
    · exact absurd h (by decide)
    · exact expChars_no_E _ h

/-- C8: for every input, `_volume1` is a string with exactly one `'E'`,
and `_volume2` is byte-for-byte `_volume1` with that single `'E'` removed
(the mantissa digits, exponent sign and exponent digit are identical). -/
theorem volume2_eq_volume1_minus_E (x : ℚ) :
    ∃ pre post : List Char,
      _volume1 x = pre ++ 'E' :: post
        ∧ 'E' ∉ pre ∧ 'E' ∉ post
        ∧ _volume2 x = pre ++ post := by
  have hs : 'E' ∉ formatSci3 |x| := formatSci3_no_E |x|
  refine ⟨sIdx (formatSci3 |x|) 0 :: ((formatSci3 |x|).drop 2).take 3,
    [sIdx (formatSci3 |x|) (-3), sIdx (formatSci3 |x|) (-1)], ?_, ?_, ?_, ?_⟩
  · simp [_volume1]
  · intro hmem
    rcases List.mem_cons.mp hmem with h | h
    · exact sIdx_ne_E hs 0 h.symm
    · have : 'E' ∈ formatSci3 |x| :=
        List.drop_subset 2 _ (List.take_subset 3 _ h)
      exact hs this
  · intro hmem
    rcases List.mem_cons.mp hmem with h | h
    · exact sIdx_ne_E hs (-3) h.symm
    · rcases List.mem_singleton.mp h with h
      exact sIdx_ne_E hs (-1) h.symm
  · have hpre : ∀ c ∈ sIdx (formatSci3 |x|) 0 :: ((formatSci3 |x|).drop 2).take 3,
        c ≠ 'E' := by
      intro c hc
      rcases List.mem_cons.mp hc with h | h
      · rw [h]; exact sIdx_ne_E hs 0
      · intro hE
        exact hs (List.drop_subset 2 _ (List.take_subset 3 _ (hE ▸ h)))
    rw [_volume2]
    simp only [_volume1]
    rw [show sIdx (formatSci3 |x|) 0 ::
        (((formatSci3 |x|).drop 2).take 3
          ++ 'E' :: [sIdx (formatSci3 |x|) (-3), sIdx (formatSci3 |x|) (-1)])
        = (sIdx (formatSci3 |x|) 0 :: ((formatSci3 |x|).drop 2).take 3)
          ++ 'E' :: [sIdx (formatSci3 |x|) (-3), sIdx (formatSci3 |x|) (-1)] by simp]
    rw [List.filter_append]
    rw [List.filter_eq_self.mpr (fun c hc => by simpa using hpre c hc)]
    rw [List.filter_cons_of_neg (by simp)]
    congr 1
    apply List.filter_eq_self.mpr
    intro c hc
    rcases List.mem_cons.mp hc with h | h
    · simpa [h] using sIdx_ne_E hs (-3)
    · rcases List.mem_singleton.mp h with h
      simpa [h] using sIdx_ne_E hs (-1)

/-! ## Exactness of the `%.3e` formatter on 4-significant-digit inputs -/

theorem log_mantissa (m : ℕ) (e : ℤ) (h1 : 1000 ≤ m) (h2 : m ≤ 9999) :
    Int.log 10 ((m : ℚ) / 1000 * (10 : ℚ) ^ e) = e := by
  have hmpos : (0 : ℚ) < (m : ℚ) := by exact_mod_cast (by omega : 0 < m)
  have hx : (0 : ℚ) < (m : ℚ) / 1000 * (10 : ℚ) ^ e := by positivity
  have hb : ((10 : ℕ) : ℚ) = (10 : ℚ) := by norm_num
  have hlo : ((10 : ℕ) : ℚ) ^ e ≤ (m : ℚ) / 1000 * (10 : ℚ) ^ e := by
    rw [hb]
    have h1' : (1 : ℚ) ≤ (m : ℚ) / 1000 := by
      rw [le_div_iff₀ (by norm_num)]
      exact_mod_cast (by omega : 1000 ≤ m)
    nlinarith [zpow_pos (show (0 : ℚ) < 10 by norm_num) e]
  have hhi : (m : ℚ) / 1000 * (10 : ℚ) ^ e < ((10 : ℕ) : ℚ) ^ (e + 1) := by
    rw [hb, zpow_add_one₀ (by norm_num : (10 : ℚ) ≠ 0)]
    have h2' : (m : ℚ) / 1000 < 10 := by
      rw [div_lt_iff₀ (by norm_num)]
      exact_mod_cast (by omega : m < 10 * 1000)
    nlinarith [zpow_pos (show (0 : ℚ) < 10 by norm_num) e]
  have hle := (Int.zpow_le_iff_le_log (by norm_num) hx).mp hlo
  have hlt := (Int.lt_zpow_iff_log_lt (by norm_num) hx).mp hhi
  omega

theorem rndHalfEven_intCast (n : ℤ) : rndHalfEven (n : ℚ) = n := by
  rw [rndHalfEven]
  rw [Int.fract_intCast, Int.floor_intCast]
  norm_num

theorem sci3_exact (m : ℕ) (e : ℤ) (h1 : 1000 ≤ m) (h2 : m ≤ 9999) :
    sci3 ((m : ℚ) / 1000 * (10 : ℚ) ^ e) = ((m : ℤ), e) := by
  simp only [sci3]
  rw [log_mantissa m e h1 h2]
  have harg : (m : ℚ) / 1000 * (10 : ℚ) ^ e * (10 : ℚ) ^ ((3 : ℤ) - e)
      = ((m : ℤ) : ℚ) := by
    rw [mul_assoc, ← zpow_add₀ (by norm_num : (10 : ℚ) ≠ 0)]
    rw [show e + (3 - e) = (3 : ℤ) by ring]
    rw [show (10 : ℚ) ^ (3 : ℤ) = 1000 by norm_num]
    push_cast
    ring
  rw [harg, rndHalfEven_intCast, if_neg (show (m : ℤ) ≠ 10000 by omega)]

theorem formatSci3_exact (m : ℕ) (e : ℤ) (h1 : 1000 ≤ m) (h2 : m ≤ 9999) :
    formatSci3 ((m : ℚ) / 1000 * (10 : ℚ) ^ e)
      = [Nat.digitChar (m / 1000), '.', Nat.digitChar (m / 100 % 10),
          Nat.digitChar (m / 10 % 10), Nat.digitChar (m % 10), 'e']
        ++ expChars e := by
  have hmpos : (0 : ℚ) < (m : ℚ) := by exact_mod_cast (by omega : 0 < m)
  have hx : (0 : ℚ) < (m : ℚ) / 1000 * (10 : ℚ) ^ e := by positivity
  simp only [formatSci3]
  rw [if_neg (ne_of_gt hx), sci3_exact m e h1 h2]
  simp

theorem expChars_small (e : ℤ) (he : e.natAbs ≤ 9) :
    expChars e = (if e < 0 then '-' else '+') :: ['0', Nat.digitChar e.natAbs] := by
  rw [expChars]
  have hd : decStr e.natAbs = [Nat.digitChar e.natAbs] := by
    by_cases h0 : e.natAbs = 0
    · rw [h0]; decide
    · rw [decStr_eq_digits, if_neg h0, Nat.digits_of_lt 10 _ h0 (by omega)]
      rfl
  rw [hd]
  by_cases hneg : e < 0 <;> simp [hneg, zfill]

theorem volume1_exact (m : ℕ) (e : ℤ) (h1 : 1000 ≤ m) (h2 : m ≤ 9999)
    (he : e.natAbs ≤ 9) :
    _volume1 ((m : ℚ) / 1000 * (10 : ℚ) ^ e)
      = [Nat.digitChar (m / 1000), Nat.digitChar (m / 100 % 10),
          Nat.digitChar (m / 10 % 10), Nat.digitChar (m % 10), 'E',
          if e < 0 then '-' else '+', Nat.digitChar e.natAbs] := by
  have hmpos : (0 : ℚ) < (m : ℚ) := by exact_mod_cast (by omega : 0 < m)
  have hx : (0 : ℚ) ≤ (m : ℚ) / 1000 * (10 : ℚ) ^ e := by positivity
  simp only [_volume1]
  rw [abs_of_nonneg hx, formatSci3_exact m e h1 h2, expChars_small e he]
  rfl

theorem volume2_exact (m : ℕ) (e : ℤ) (h1 : 1000 ≤ m) (h2 : m ≤ 9999)
    (he : e.natAbs ≤ 9) :
    _volume2 ((m : ℚ) / 1000 * (10 : ℚ) ^ e)
      = [Nat.digitChar (m / 1000), Nat.digitChar (m / 100 % 10),
          Nat.digitChar (m / 10 % 10), Nat.digitChar (m % 10),
          if e < 0 then '-' else '+', Nat.digitChar e.natAbs] := by
  rw [_volume2, volume1_exact m e h1 h2 he]
  by_cases hneg : e < 0 <;>
    simp [hneg, List.filter_cons, digitChar_ne_E]

/-- Reassembling a four-digit number from its decimal digit characters. -/
theorem digits4_value (m : ℕ) (h2 : m ≤ 9999) :
    1000 * digitVal (Nat.digitChar (m / 1000))
        + 100 * digitVal (Nat.digitChar (m / 100 % 10))
        + 10 * digitVal (Nat.digitChar (m / 10 % 10))
        + digitVal (Nat.digitChar (m % 10)) = m := by
  rw [digitVal_digitChar (by omega), digitVal_digitChar (by omega),
    digitVal_digitChar (by omega), digitVal_digitChar (by omega)]
  omega

/-- Reading the sign and single exponent digit back yields the exponent. -/
theorem expdigit_value (e : ℤ) (he : e.natAbs ≤ 9) :
    (if (if e < 0 then '-' else '+') = '-'
        then -(digitVal (Nat.digitChar e.natAbs) : ℤ)
        else (digitVal (Nat.digitChar e.natAbs) : ℤ)) = e := by
  rw [digitVal_digitChar (by omega)]
  by_cases hneg : e < 0
  · rw [if_pos hneg, if_pos rfl]
    omega
  · rw [if_neg hneg, if_neg (by decide)]
    omega

/-- C4: for each of the six codec functions, the spec-modelled decode
inverts the encode on every input exactly representable in the fixed-width
field: times whose tenths-of-a-second value is an integer in range,
volumes with four significant digits and a single-digit exponent, and
in-range integers for the discrete fields. -/
theorem codec_roundtrip_spec :
    (∀ (v : ℚ) (u : TimeUnit) (k : ℕ), v * unitMult u = k → k ≤ 35964000 →
        decodeTime1 (_time1 v u) u = v)
      ∧ (∀ (v : ℚ) (u : TimeUnit) (k : ℕ), v * unitMult u = k → k ≤ 35964000 →
        decodeTime2 (_time2 v u) u = v)
      ∧ (∀ (m : ℕ) (e : ℤ), 1000 ≤ m → m ≤ 9999 → e.natAbs ≤ 9 →
        decodeVolume1 (_volume1 ((m : ℚ) / 1000 * (10 : ℚ) ^ e))
          = some ((m : ℚ) / 1000 * (10 : ℚ) ^ e))
      ∧ (∀ (m : ℕ) (e : ℤ), 1000 ≤ m → m ≤ 9999 → e.natAbs ≤ 9 →
        decodeVolume2 (_volume2 ((m : ℚ) / 1000 * (10 : ℚ) ^ e))
          = some ((m : ℚ) / 1000 * (10 : ℚ) ^ e))
      ∧ (∀ n : ℤ, 0 ≤ n → n < 10000 →
        _discrete2 (PyNum.int n) = some (zfill 4 (decStr n.toNat))
          ∧ decodeDiscrete2 (zfill 4 (decStr n.toNat)) = n)
      ∧ (∀ n : ℤ, 0 ≤ n → n < 1000000 →
        _discrete3 n = some (zfill 6 (decStr n.toNat))
          ∧ decodeDiscrete3 (zfill 6 (decStr n.toNat)) = n) := by
  have htime : ∀ (v : ℚ) (u : TimeUnit) (k : ℕ), v * unitMult u = k →
      k ≤ 35964000 → _time1 v u = decStr k ∧ decodeTime1 (_time1 v u) u = v := by
    intro v u k hk hle
    have hmult : (0 : ℚ) < unitMult u := by cases u <;> norm_num [unitMult]
    have hpy : pyInt (v * unitMult u) = (k : ℤ) := by
      rw [hk, pyInt, if_pos (by positivity)]
      exact Int.floor_natCast k
    have hmin : min (pyInt (v * unitMult u)) 35964000 = (k : ℤ) := by
      rw [hpy]
      omega
    have ht : _time1 v u = decStr k := by
      rw [_time1, hmin, intStr_nonneg (Int.natCast_nonneg k), Int.toNat_natCast,
        removeDot_decStr]
    refine ⟨ht, ?_⟩
    rw [decodeTime1, ht, parseNat_decStr, eq_comm, eq_div_iff (ne_of_gt hmult), hk]
  refine ⟨fun v u k hk hle => (htime v u k hk hle).2, ?_, ?_, ?_, ?_, ?_⟩
  · intro v u k hk hle
    rw [_time2, decodeTime2, decodeTime1, parseNat_zfill, (htime v u k hk hle).1,
      parseNat_decStr]
    have hmult : (0 : ℚ) < unitMult u := by cases u <;> norm_num [unitMult]
    rw [eq_comm, eq_div_iff (ne_of_gt hmult), hk]
  · intro m e h1 h2 he
    rw [volume1_exact m e h1 h2 he]
    simp only [decodeVolume1]
    rw [digits4_value m h2, expdigit_value e he]
  · intro m e h1 h2 he
    rw [volume2_exact m e h1 h2 he]
    simp only [decodeVolume2]
    rw [digits4_value m h2, expdigit_value e he]
  · intro n h0 hlt
    have hcond : (0 : ℚ) ≤ (PyNum.int n).val ∧ (PyNum.int n).val < 10000 := by
      rw [show (PyNum.int n).val = (n : ℚ) from rfl]
      constructor
      · exact_mod_cast h0
      · exact_mod_cast hlt
    have henc : _discrete2 (PyNum.int n) = some (zfill 4 (decStr n.toNat)) := by
      unfold _discrete2
      rw [if_pos hcond]
      rw [show PyNum.pyStr (PyNum.int n) = intStr n from rfl, intStr_nonneg h0]
    refine ⟨henc, ?_⟩
    unfold decodeDiscrete2
    rw [parseNat_zfill, parseNat_decStr]
    omega
  · intro n h0 hlt
    have henc : _discrete3 n = some (zfill 6 (decStr n.toNat)) := by
      unfold _discrete3
      rw [if_pos (⟨h0, hlt⟩ : 0 ≤ n ∧ n < 1000000), intStr_nonneg h0]
    refine ⟨henc, ?_⟩
    unfold decodeDiscrete3
    rw [parseNat_zfill, parseNat_decStr]
    omega

/-- Witness for `codec_roundtrip_spec`: time 2 s (20 tenths), volume
`1.200e-3`, discrete2 at 102, discrete3 at 999999. -/
theorem codec_roundtrip_spec_witness :
    decodeTime1 (_time1 2 TimeUnit.s) TimeUnit.s = 2
      ∧ decodeTime2 (_time2 2 TimeUnit.s) TimeUnit.s = 2
      ∧ decodeVolume1 (_volume1 (((1200 : ℕ) : ℚ) / 1000 * (10 : ℚ) ^ (-3 : ℤ)))
          = some (((1200 : ℕ) : ℚ) / 1000 * (10 : ℚ) ^ (-3 : ℤ))
      ∧ decodeVolume2 (_volume2 (((1200 : ℕ) : ℚ) / 1000 * (10 : ℚ) ^ (-3 : ℤ)))
          = some (((1200 : ℕ) : ℚ) / 1000 * (10 : ℚ) ^ (-3 : ℤ))
      ∧ decodeDiscrete2 (zfill 4 (decStr (102 : ℤ).toNat)) = 102
      ∧ decodeDiscrete3 (zfill 6 (decStr (999999 : ℤ).toNat)) = 999999 :=
  ⟨codec_roundtrip_spec.1 2 TimeUnit.s 20 (by norm_num [unitMult]) (by norm_num),
    codec_roundtrip_spec.2.1 2 TimeUnit.s 20 (by norm_num [unitMult]) (by norm_num),
    codec_roundtrip_spec.2.2.1 1200 (-3) (by norm_num) (by norm_num) (by decide),
    codec_roundtrip_spec.2.2.2.1 1200 (-3) (by norm_num) (by norm_num) (by decide),
    (codec_roundtrip_spec.2.2.2.2.1 102 (by norm_num) (by norm_num)).2,
    (codec_roundtrip_spec.2.2.2.2.2 999999 (by norm_num) (by norm_num)).2⟩

end Protocol

/-! ## Python values crossing the queues -/

/-- A Python value as it appears on the request/response queues: a `str`
or a `bytes`. -/
inductive PyVal
  | str (s : List Char)
  | bytes (b : List ℕ)

/-- Python `==` between queue values.  In Python 3 a comparison between a
`bytes` object and a `str` object is always `False`, whatever their
contents. -/
def pyEq : PyVal → PyVal → Bool
  | .str a, .str b => a == b
  | .bytes a, .bytes b => a == b
  | _, _ => false

/-- The Running-State Cache `self.running`: a mapping from channel number
to boolean, modelled as a partial function (`none` = key absent). -/
def RunMap : Type := ℤ → Option Bool

/-- One Python dict assignment `self.running[ch] = status`. -/
def setRun (m : RunMap) (ch : ℤ) (st : Bool) : RunMap :=
  fun k => if k = ch then some st else m k

/-! ## The notification check of the two loops (C1) -/

/-- Embeds the notification check at the bottom of
`SerialCommunicator.loop` (util.py lines 143-151).  `line` is the `bytes`
returned by `self.ser.readline()`; the code tests `line[:2] == '^U'` and
`line[:2] == '^X'` — each a `bytes`-to-`str` comparison — and on success
would run `ch = int(line[2]); self.running[ch] = True/False`.  Indexing a
`bytes` yields the byte value itself (an `int`, unchanged by `int(...)`),
which is what the body records; the body is in fact unreachable, because a
`bytes` never compares equal to a `str` (`serial_handle_line_ignores`
below), so its total modelling of `line[2]` cannot affect any result. -/
def serialHandleLine (line : List ℕ) (running : RunMap) : RunMap :=
  if line.length ≠ 0 then
    if pyEq (.bytes (line.take 2)) (.str ['^', 'U']) then
      setRun running ((line.getD 2 0 : ℕ) : ℤ) true
    else if pyEq (.bytes (line.take 2)) (.str ['^', 'X']) then
      setRun running ((line.getD 2 0 : ℕ) : ℤ) false
    else running
  else running

/-- Embeds the notification check at the bottom of
`SocketCommunicator.loop` (util.py lines 207-218).  Here `line` is a
`str` and the checks are `str`-to-`str`.  `int(line[2])` raises
`ValueError` on a non-digit — uncaught, hence `Except.error` — while an
`IndexError` from `line[2]` is caught and only logged, leaving the cache
unchanged. -/
def socketHandleLine (line : List Char) (running : RunMap) : Except Unit RunMap :=
  if line.length ≠ 0 then
    if line.take 2 = ['^', 'U'] then
      match line.get? 2 with
      | some c =>
          if c.isDigit then .ok (setRun running ((digitVal c : ℕ) : ℤ) true)
          else .error ()
      | none => .ok running
    else if line.take 2 = ['^', 'X'] then
      match line.get? 2 with
      | some c =>
          if c.isDigit then .ok (setRun running ((digitVal c : ℕ) : ℤ) false)
          else .error ()
      | none => .ok running
    else .ok running
  else .ok running

theorem serial_handle_line_ignores (line : List ℕ) (running : RunMap) :
    serialHandleLine line running = running := by
  unfold serialHandleLine
  split
  · rw [show pyEq (.bytes (line.take 2)) (.str ['^', 'U']) = false from rfl,
      show pyEq (.bytes (line.take 2)) (.str ['^', 'X']) = false from rfl]
    simp
  · rfl

/-- The socket variant does dispatch notifications: a `str` line starting
`^U` (resp. `^X`) with a digit third character sets that channel's entry
to `True` (resp. `False`), and the handler never touches the response
queue (it returns only the updated cache). -/
theorem socket_handle_line_updates (d : Char) (rest : List Char)
    (running : RunMap) (hd : d.isDigit) :
    socketHandleLine ('^' :: 'U' :: d :: rest) running
        = .ok (setRun running ((digitVal d : ℕ) : ℤ) true)
      ∧ socketHandleLine ('^' :: 'X' :: d :: rest) running
        = .ok (setRun running ((digitVal d : ℕ) : ℤ) false) := by
  constructor <;> simp [socketHandleLine, hd]

/-- C1: the serial loop drops run-state notifications.  Evaluated at the
line `b"^U1\r\n"` (bytes 94 = `'^'`, 85 = `'U'`, 49 = `'1'`): the line
does begin with `^U` followed by the digit `1`, yet the Running-State
Cache is left unchanged — no entry is created for channel 1 (nor for any
channel) — because `line[:2] == '^U'` compares a `bytes` slice against a
`str` literal, which is always `False` in Python 3.  The socket variant
behaves as claimed (`socket_handle_line_updates`). -/
theorem serial_notification_dropped_eval :
    ([94, 85, 49] : List ℕ)
        = [('^' : Char).toNat, ('U' : Char).toNat, ('1' : Char).toNat]
      ∧ ∀ k, serialHandleLine [94, 85, 49, 13, 10] (fun _ => none) k = none := by
  constructor
  · decide
  · intro k
    rw [serial_handle_line_ignores]

/-! ## The result handling of `Communicator.command` (C7) -/

/-- Embeds the tail of `Communicator.command` (util.py lines 78-83):
`result = self.res_q.get()`, then `return True` if `result == '*'` else
`return False`. -/
def commandResult (delivered : PyVal) : Bool := pyEq delivered (.str ['*'])

/-- C7: `command` returns `True` exactly when the Response delivered on
the response queue for its exchange is the single-character
acknowledgment sentinel `'*'`, and `False` for every other delivered
value. -/
theorem command_ack_iff (delivered : PyVal) :
    commandResult delivered = true ↔ delivered = PyVal.str ['*'] := by
  cases delivered with
  | str s =>
    simp [commandResult, pyEq]
  | bytes b =>
    simp [commandResult, pyEq]

/-! ## `Communicator.set_running_status` (C10) -/

/-- The `channel` argument of `set_running_status`: a Python list or
tuple of channels, or a single value. -/
inductive ChanArg
  | many (l : List ℤ)
  | one (c : ℤ)

/-- Embeds `Communicator.set_running_status` (util.py lines 51-64):
for a list/tuple, assign each listed channel; for `channel == 0`, assign
every key already in `self.running`; otherwise assign that channel. -/
def set_running_status (status : Bool) (channel : ChanArg) (running : RunMap) :
    RunMap :=
  match channel with
  | .many l => l.foldl (fun acc ch => setRun acc ch status) running
  | .one c =>
      if c = 0 then fun k => (running k).map (fun _ => status)
      else setRun running c status

theorem foldl_setRun_not_mem {st : Bool} {k : ℤ} :
    ∀ (l : List ℤ) (m : RunMap), k ∉ l →
      l.foldl (fun acc ch => setRun acc ch st) m k = m k := by
  intro l
  induction l with
  | nil => intro m _; rfl
  | cons c t ih =>
    intro m hk
    rw [List.foldl_cons, ih (setRun m c st) (fun h => hk (List.mem_cons_of_mem c h))]
    rw [setRun, if_neg (fun h => hk (by rw [h]; exact List.mem_cons_self c t))]

theorem foldl_setRun_mem {st : Bool} {k : ℤ} :
    ∀ (l : List ℤ) (m : RunMap), k ∈ l →
      l.foldl (fun acc ch => setRun acc ch st) m k = some st := by
  intro l
  induction l with
  | nil => intro m hk; cases hk
  | cons c t ih =>
    intro m hk
    rw [List.foldl_cons]
    by_cases ht : k ∈ t
    · exact ih (setRun m c st) ht
    · have hkc : k = c := by
        rcases List.mem_cons.mp hk with h | h
        · exact h
        · exact absurd h ht
      rw [foldl_setRun_not_mem t (setRun m c st) ht, setRun, if_pos hkc]

/-- C10: `set_running_status` with a list argument sets exactly the listed
channels and leaves all others untouched; with the single channel `0` it
overwrites every already-present entry and creates none; with any other
single channel it creates or updates only that channel's entry. -/
theorem set_running_status_spec (st : Bool) (m : RunMap) :
    (∀ l : List ℤ,
        (∀ ch ∈ l, set_running_status st (.many l) m ch = some st)
          ∧ ∀ k, k ∉ l → set_running_status st (.many l) m k = m k)
      ∧ ((∀ k b, m k = some b → set_running_status st (.one 0) m k = some st)
          ∧ ∀ k, m k = none → set_running_status st (.one 0) m k = none)
      ∧ (∀ c : ℤ, c ≠ 0 →
          set_running_status st (.one c) m c = some st
            ∧ ∀ k, k ≠ c → set_running_status st (.one c) m k = m k) := by
  refine ⟨fun l => ⟨fun ch hch => ?_, fun k hk => ?_⟩, ⟨?_, ?_⟩, fun c hc => ⟨?_, ?_⟩⟩
  · exact foldl_setRun_mem l m hch
  · exact foldl_setRun_not_mem l m hk
  · intro k b hb
    simp [set_running_status, hb]
  · intro k hb
    simp [set_running_status, hb]
  · simp [set_running_status, hc, setRun]
  · intro k hk
    simp [set_running_status, hc, setRun, hk]

/-- Witness for `set_running_status_spec` on the cache `{5 ↦ false}`:
list `[1, 2]` sets channels 1 and 2 and leaves 5 alone; channel 0 flips
the present entry 5 and creates nothing at 7; channel 3 sets only 3. -/
theorem set_running_status_spec_witness :
    set_running_status true (.many [1, 2])
        (fun k => if k = 5 then some false else none) 1 = some true
      ∧ set_running_status true (.many [1, 2])
          (fun k => if k = 5 then some false else none) 5
        = (fun k : ℤ => if k = 5 then some false else none) 5
      ∧ set_running_status true (.one 0)
          (fun k => if k = 5 then some false else none) 5 = some true
      ∧ set_running_status true (.one 0)
          (fun k => if k = 5 then some false else none) 7 = none
      ∧ set_running_status true (.one 3)
          (fun k => if k = 5 then some false else none) 3 = some true
      ∧ set_running_status true (.one 3)
          (fun k => if k = 5 then some false else none) 5
        = (fun k : ℤ => if k = 5 then some false else none) 5 :=
  ⟨((set_running_status_spec true _).1 [1, 2]).1 1 (by decide),
    ((set_running_status_spec true _).1 [1, 2]).2 5 (by decide),
    (set_running_status_spec true _).2.1.1 5 false (by norm_num),
    (set_running_status_spec true _).2.1.2 7 (by norm_num),
    ((set_running_status_spec true _).2.2 3 (by norm_num)).1,
    ((set_running_status_spec true _).2.2 3 (by norm_num)).2 5 (by norm_num)⟩

/-! ## The exchange sequence of the two worker loops (C2) -/

/-- One observable action of a loop handling a request. -/
inductive WireEv
  | send (data : List Char)
  | recvBounded (n : ℕ)
  | recvLine
  | putRes (r : List Char)

/-- Python whitespace, as stripped by `str.strip()`. -/
def isPyWS (c : Char) : Bool :=
  c = ' ' || c = '\t' || c = '\n' || c = '\r' || c = '\x0b' || c = '\x0c'

/-- Python `str.strip()`: drop whitespace from both ends. -/
def pyStrip (s : List Char) : List Char :=
  ((s.dropWhile isPyWS).reverse.dropWhile isPyWS).reverse

/-- Embeds the request-handling block of `SocketCommunicator.loop`
(util.py lines 191-206) as the ordered transport actions it performs,
with the response line it reads supplied by `lineRead`:
`self.socket.send(b'1xE0\r')`; `self.timeout_recv(1)`;
`flush = self.timeout_recv(100)`; `self.socket.send(cmd.encode() + b'\r')`;
`res = self.readline().strip()`; `self.res_q.put(res)`;
`self.socket.send(b'1xE1\r')`; `self.timeout_recv(1)`. -/
def socketLoopBody (cmd : List Char) (lineRead : List Char) : List WireEv :=
  [.send ['1', 'x', 'E', '0', '\r'], .recvBounded 1]
    ++ [.recvBounded 100]
    ++ [.send (cmd ++ ['\r']), .recvLine, .putRes (pyStrip lineRead)]
    ++ [.send ['1', 'x', 'E', '1', '\r'], .recvBounded 1]

/-- The socket loop performs exactly the claimed exchange sequence:
disable directive and its acknowledgment read, bounded flush read, framed
command, one response line delivered to the response queue, enable
directive and its acknowledgment read, in this order. -/
theorem socketLoopBody_events (cmd lineRead : List Char) :
    socketLoopBody cmd lineRead
      = [.send ['1', 'x', 'E', '0', '\r'], .recvBounded 1, .recvBounded 100,
          .send (cmd ++ ['\r']), .recvLine, .putRes (pyStrip lineRead),
          .send ['1', 'x', 'E', '1', '\r'], .recvBounded 1] := rfl

/-- Bytes of `b'1xE0\r'`, the disable-async-notifications directive. -/
def e0Bytes : List ℕ := [49, 120, 69, 48, 13]

/-- Program counter of the serial worker inside one `loop()` call that
found the request queue nonempty (util.py lines 124-142).  The first
statement is `self.command(b'1xE0\r')` — `Communicator.command`, which is
a `req_q.put` followed by a blocking `res_q.get` (lines 73-78) — not a
write to the serial port. -/
inductive SerialPc
  | atStart
  | waitingRes
  | afterGet

/-- State of the serial communicator system: the worker's position, the
two queues, and the log of byte strings written to the serial port. -/
structure SerialSys where
  pc : SerialPc
  reqq : List PyVal
  resq : List PyVal
  wire : List (List ℕ)

/-- Small-step transitions.  `commandCall` is the worker executing
`self.command(b'1xE0\r')`: enqueue onto its own request queue, then block
in `res_q.get()`.  `getReturns` can fire only when the response queue is
nonempty; the only `res_q.put` in the program is later in this same
blocked loop body (line 139).  `callerPut` is any caller thread's
`req_q.put` (lines 75 and 88) — callers never put on the response
queue. -/
inductive SerialStep : SerialSys → SerialSys → Prop
  | commandCall (s : SerialSys) (h : s.pc = .atStart) :
      SerialStep s ⟨.waitingRes, s.reqq ++ [.bytes e0Bytes], s.resq, s.wire⟩
  | getReturns (s : SerialSys) (r : PyVal) (rest : List PyVal)
      (h : s.pc = .waitingRes) (hr : s.resq = r :: rest) :
      SerialStep s ⟨.afterGet, s.reqq, rest, s.wire⟩
  | callerPut (s : SerialSys) (v : List Char) :
      SerialStep s ⟨s.pc, s.reqq ++ [.str v], s.resq, s.wire⟩

/-- Initial state: a caller has enqueued one command and the worker's
`loop()` just found `self.req_q.qsize()` nonzero. -/
def serialInit (cmd : List Char) : SerialSys :=
  ⟨.atStart, [.str cmd], [], []⟩

theorem serial_loop_invariant (cmd : List Char) :
    ∀ s, Relation.ReflTransGen SerialStep (serialInit cmd) s →
      s.wire = [] ∧ s.resq = [] ∧ s.pc ≠ .afterGet := by
  intro s h
  induction h with
  | refl =>
    refine ⟨rfl, rfl, ?_⟩
    intro hc
    cases hc
  | tail hsteps hstep ih =>
    cases hstep with
    | commandCall h =>
      refine ⟨ih.1, ih.2.1, ?_⟩
      intro hc
      cases hc
    | getReturns r rest h hr =>
      rw [ih.2.1] at hr
      cases hr
    | callerPut v =>
      exact ⟨ih.1, ih.2.1, ih.2.2⟩

/-- C2: the serial loop never performs the claimed wire sequence — from
the state where the first command `'1~1'` (the first command the driver
issues) is pending, the worker's step enqueues `b'1xE0\r'` onto its own
request queue and blocks on the empty response queue, and in every
reachable state nothing at all has been written to the serial port.  The
socket loop, by contrast, performs exactly the claimed ordered sequence
(`socketLoopBody_events`). -/
theorem serial_exchange_never_writes :
    SerialStep (serialInit ['1', '~', '1'])
        ⟨.waitingRes, [.str ['1', '~', '1'], .bytes e0Bytes], [], []⟩
      ∧ ∀ s, Relation.ReflTransGen SerialStep (serialInit ['1', '~', '1']) s →
          s.wire = [] := by
  constructor
  · exact SerialStep.commandCall (serialInit ['1', '~', '1']) rfl
  · intro s h
    exact (serial_loop_invariant ['1', '~', '1'] s h).1

/-- Witness for `serial_exchange_never_writes`: the reachability
hypothesis of its second part discharged at the state after the worker's
first step. -/
theorem serial_exchange_never_writes_witness :
    (⟨SerialPc.waitingRes, [PyVal.str ['1', '~', '1'], PyVal.bytes e0Bytes],
        [], []⟩ : SerialSys).wire = [] :=
  serial_exchange_never_writes.2 _
    (Relation.ReflTransGen.single serial_exchange_never_writes.1)

/-! ## Two concurrent callers against one worker (C3) -/

/-- Phase of a caller thread inside `Communicator.command`/`query`:
before its `req_q.put`, blocked in the shared `res_q.get()`, or returned
with a response. -/
inductive CallerPhase
  | toPut
  | toGet
  | got (r : List Char)

/-- Two callers, the queues, the order in which commands were accepted
into the request queue (`accepted`), and the transport's write log
(`wire`). -/
structure TwoCallerSys where
  c1 : CallerPhase
  c2 : CallerPhase
  accepted : List (List Char)
  reqq : List (List Char)
  resq : List (List Char)
  wire : List (List Char)

/-- Interleaving semantics of two concurrent calls served by the worker
loop, the transport simulated by a canned-response function (the spec's
own test setup).  `put1`/`put2` are the callers' `req_q.put(cmd)`
(util.py lines 75 and 88); `work` is one pass of the loop body handling
one request (lines 191-206): dequeue, write the command to the wire, read
the device's response, `res_q.put` it.  `get1`/`get2` are the callers'
blocking `res_q.get()` (lines 78 and 89): both callers block on the one
shared response queue, and `queue.Queue` wakes an arbitrary waiting
getter, so whichever caller is scheduled takes the head. -/
inductive TwoCallerStep (canned : List Char → List Char)
    (cmdA cmdB : List Char) : TwoCallerSys → TwoCallerSys → Prop
  | put1 (s : TwoCallerSys) (h : s.c1 = .toPut) :
      TwoCallerStep canned cmdA cmdB s
        ⟨.toGet, s.c2, s.accepted ++ [cmdA], s.reqq ++ [cmdA], s.resq, s.wire⟩
  | put2 (s : TwoCallerSys) (h : s.c2 = .toPut) :
      TwoCallerStep canned cmdA cmdB s
        ⟨s.c1, .toGet, s.accepted ++ [cmdB], s.reqq ++ [cmdB], s.resq, s.wire⟩
  | work (s : TwoCallerSys) (c : List Char) (rest : List (List Char))
      (h : s.reqq = c :: rest) :
      TwoCallerStep canned cmdA cmdB s
        ⟨s.c1, s.c2, s.accepted, rest, s.resq ++ [canned c], s.wire ++ [c]⟩
  | get1 (s : TwoCallerSys) (r : List Char) (rest : List (List Char))
      (h : s.c1 = .toGet) (hr : s.resq = r :: rest) :
      TwoCallerStep canned cmdA cmdB s
        ⟨.got r, s.c2, s.accepted, s.reqq, rest, s.wire⟩
  | get2 (s : TwoCallerSys) (r : List Char) (rest : List (List Char))
      (h : s.c2 = .toGet) (hr : s.resq = r :: rest) :
      TwoCallerStep canned cmdA cmdB s
        ⟨s.c1, .got r, s.accepted, s.reqq, rest, s.wire⟩

/-- Initial state: both callers about to issue their command, all queues
empty. -/
def twoCallerInit : TwoCallerSys := ⟨.toPut, .toPut, [], [], [], []⟩

/-- Number of responses a caller in the given phase has consumed. -/
def CallerPhase.gotCount : CallerPhase → ℕ
  | .got _ => 1
  | _ => 0

/-- C3 (amended): in every reachable state the wire log followed by the
still-queued commands equals the acceptance order — commands are written
to the transport exactly in the order the queue accepted them — and every
written command has produced exactly one response, enqueued on the shared
response queue at the moment of the exchange (before any later command is
written), where it is either still pending or already consumed by one
caller.  Which caller consumes it is not constrained: see
`cross_delivery_trace`. -/
theorem fifo_write_order (canned : List Char → List Char)
    (cmdA cmdB : List Char) :
    ∀ s, Relation.ReflTransGen (TwoCallerStep canned cmdA cmdB) twoCallerInit s →
      s.accepted = s.wire ++ s.reqq
        ∧ s.wire.length = s.resq.length + s.c1.gotCount + s.c2.gotCount := by
  intro s h
  induction h with
  | refl => exact ⟨rfl, rfl⟩
  | tail hsteps hstep ih =>
    cases hstep with
    | put1 h =>
      have h2 := ih.2
      rw [h] at h2
      refine ⟨by rw [ih.1, List.append_assoc], ?_⟩
      simp only [CallerPhase.gotCount] at h2 ⊢
      omega
    | put2 h =>
      have h2 := ih.2
      rw [h] at h2
      refine ⟨by rw [ih.1, List.append_assoc], ?_⟩
      simp only [CallerPhase.gotCount] at h2 ⊢
      omega
    | work c rest h =>
      have h2 := ih.2
      refine ⟨?_, ?_⟩
      · rw [ih.1, h]
        simp
      · simp only [List.length_append, List.length_cons, List.length_nil] at h2 ⊢
        omega
    | get1 r rest h hr =>
      have h2 := ih.2
      rw [h, hr] at h2
      refine ⟨ih.1, ?_⟩
      simp only [CallerPhase.gotCount, List.length_cons] at h2 ⊢
      omega
    | get2 r rest h hr =>
      have h2 := ih.2
      rw [h, hr] at h2
      refine ⟨ih.1, ?_⟩
      simp only [CallerPhase.gotCount, List.length_cons] at h2 ⊢
      omega

/-- Witness for `fifo_write_order`: its reachability hypothesis
discharged at the state reached by caller 1's enqueue step. -/
theorem fifo_write_order_witness :
    (⟨CallerPhase.toGet, CallerPhase.toPut, [['1', 'f']], [['1', 'f']], [],
        []⟩ : TwoCallerSys).accepted
        = [] ++ [['1', 'f']]
      ∧ ([] : List (List Char)).length
        = ([] : List (List Char)).length + CallerPhase.toGet.gotCount
            + CallerPhase.toPut.gotCount := by
  have h := fifo_write_order (fun c => c) ['1', 'f'] ['2', 'f'] _
    (Relation.ReflTransGen.single
      (TwoCallerStep.put1 twoCallerInit rfl))
  exact h

/-- C3 counterexample to the no-cross-delivery part: with canned
responses appending `" ok"`, caller 1 enqueues `"1f"`, caller 2 enqueues
`"2f"`, the worker serves the first exchange (writing `"1f"` and
enqueueing its response `"1f ok"`), and then caller 2 — also blocked on
the shared response queue — is scheduled first and takes `"1f ok"`:
caller 2 ends holding the response correlated with caller 1's command,
which differs from its own response `"2f ok"`. -/
theorem cross_delivery_trace :
    Relation.ReflTransGen
        (TwoCallerStep (fun c => c ++ [' ', 'o', 'k']) ['1', 'f'] ['2', 'f'])
        twoCallerInit
        ⟨.toGet, .got ['1', 'f', ' ', 'o', 'k'], [['1', 'f'], ['2', 'f']],
          [['2', 'f']], [], [['1', 'f']]⟩
      ∧ (['1', 'f', ' ', 'o', 'k'] : List Char)
          = (fun c => c ++ [' ', 'o', 'k']) ['1', 'f']
      ∧ (['1', 'f', ' ', 'o', 'k'] : List Char)
          ≠ (fun c => c ++ [' ', 'o', 'k']) ['2', 'f'] := by
  refine ⟨?_, by decide, by decide⟩
  refine Relation.ReflTransGen.head
    (TwoCallerStep.put1 twoCallerInit rfl) ?_
  refine Relation.ReflTransGen.head
    (TwoCallerStep.put2 _ rfl) ?_
  refine Relation.ReflTransGen.head
    (TwoCallerStep.work _ ['1', 'f'] [['2', 'f']] rfl) ?_
  exact Relation.ReflTransGen.single
    (TwoCallerStep.get2 _ ['1', 'f', ' ', 'o', 'k'] [] rfl rfl)

end Ismatec
